import Mathlib

/-!
# Verification of the bitcoincash-addr address codec library

Shallow embedding of the `rust-bitcoincash-addr` crate: the `Base58Codec`
(src/base58.rs), the shared data model (src/lib.rs), and a model of the
CashAddr codec (whose source file is not present in this tree).

Bytes are modelled as `Nat` values; every arithmetic step that overflows a
machine word in the source carries an explicit `% 2 ^ 32` (or `% 256`).
All definitions are executable so that concrete test vectors evaluate by
`decide` / `rfl`.
-/

namespace BchAddr

/-- Bitcoin networks, from src/lib.rs. -/
inductive Network where
  | Main
  | Test
  | Regtest
deriving DecidableEq, Repr

/-- Interpretation of the hash bytes, from src/lib.rs. -/
inductive HashType where
  | Key
  | Script
deriving DecidableEq, Repr

/-- Address scheme tag. In src/base58.rs the decoder stores `Scheme::Base58`
in the returned `Address`; in src/lib.rs the scheme is a phantom codec type
parameter on `Address<C>`. We model both with this tag. -/
inductive Scheme where
  | Base58
  | CashAddr
deriving DecidableEq, Repr

/-- Base58 decoding errors as constructed by src/base58.rs. All four
variants are bare tags: the decode code in src/base58.rs attaches no data
to any of them (`.map_err(|_| Base58Error::Non58)` drops the character
reported by the underlying base58 crate). -/
inductive Base58Error where
  | Non58
  | InvalidLength
  | InvalidChecksum
  | InvalidNetwork
deriving DecidableEq, Repr

/-- The `Address` struct constructed by `Base58Codec::decode`
(src/base58.rs): scheme tag, raw body bytes, hash type and network. -/
structure Address where
  scheme : Scheme
  body : List Nat
  hash_type : HashType
  network : Network
deriving DecidableEq, Repr

/-! ## SHA-256 (the `bitcoin_hashes::sha256d` double hash used by base58.rs)

A byte-level executable SHA-256 over `List Nat`, every word kept below
`2 ^ 32` by explicit reduction.  Structural recursion throughout so the
kernel can evaluate concrete digests. -/

/-- Right-rotation of a 32-bit word. -/
def rotr32 (n x : Nat) : Nat :=
  ((x >>> n) ||| (x <<< (32 - n))) % 2 ^ 32

/-- The 64 SHA-256 round constants of FIPS 180-4, written in decimal. -/
def shaK : List Nat :=
  [1116352408, 1899447441, 3049323471, 3921009573, 961987163, 1508970993,
   2453635748, 2870763221, 3624381080, 310598401, 607225278, 1426881987,
   1925078388, 2162078206, 2614888103, 3248222580, 3835390401, 4022224774,
   264347078, 604807628, 770255983, 1249150122, 1555081692, 1996064986,
   2554220882, 2821834349, 2952996808, 3210313671, 3336571891, 3584528711,
   113926993, 338241895, 666307205, 773529912, 1294757372, 1396182291,
   1695183700, 1986661051, 2177026350, 2456956037, 2730485921, 2820302411,
   3259730800, 3345764771, 3516065817, 3600352804, 4094571909, 275423344,
   430227734, 506948616, 659060556, 883997877, 958139571, 1322822218,
   1537002063, 1747873779, 1955562222, 2024104815, 2227730452, 2361852424,
   2428436474, 2756734187, 3204031479, 3329325298]

/-- The SHA-256 initial hash state. -/
def shaH0 : List Nat :=
  [0x6a09e667, 0xbb67ae85, 0x3c6ef372, 0xa54ff53a,
   0x510e527f, 0x9b05688c, 0x1f83d9ab, 0x5be0cd19]

/-- Big-endian 8-byte rendering of the 64-bit message length. -/
def beBytes8 (n : Nat) : List Nat :=
  [(n >>> 56) % 256, (n >>> 48) % 256, (n >>> 40) % 256, (n >>> 32) % 256,
   (n >>> 24) % 256, (n >>> 16) % 256, (n >>> 8) % 256, n % 256]

/-- Big-endian 4-byte rendering of a 32-bit word. -/
def beBytes4 (n : Nat) : List Nat :=
  [(n >>> 24) % 256, (n >>> 16) % 256, (n >>> 8) % 256, n % 256]

/-- SHA-256 padding: append `0x80`, zero bytes to 56 mod 64, then the
bit length as 8 big-endian bytes. -/
def shaPad (msg : List Nat) : List Nat :=
  let z := (120 - (msg.length + 1) % 64) % 64
  msg ++ 0x80 :: List.replicate z 0 ++ beBytes8 (8 * msg.length)

/-- Group bytes into big-endian 32-bit words, four bytes at a time. -/
def toWords : List Nat → List Nat
  | a :: b :: c :: d :: rest => (((a * 256 + b) * 256 + c) * 256 + d) :: toWords rest
  | _ => []

/-- Message-schedule sigma functions. -/
def sSigma0 (x : Nat) : Nat := rotr32 7 x ^^^ rotr32 18 x ^^^ (x >>> 3)

def sSigma1 (x : Nat) : Nat := rotr32 17 x ^^^ rotr32 19 x ^^^ (x >>> 10)

/-- One message-schedule extension step at index `t` (16 ≤ t < 64). -/
def schedStep (w : List Nat) (t : Nat) : Nat :=
  (sSigma1 (w.getD (t - 2) 0) + w.getD (t - 7) 0 +
    sSigma0 (w.getD (t - 15) 0) + w.getD (t - 16) 0) % 2 ^ 32

/-- Extend the 16 message words to the 64-entry schedule. -/
def buildSched (w16 : List Nat) : List Nat :=
  (List.range 64).foldl (fun w t => if t < 16 then w else w ++ [schedStep w t]) w16

/-- One SHA-256 compression round on the 8-word working state. -/
def shaRound (st : List Nat) (k w : Nat) : List Nat :=
  let a := st.getD 0 0
  let b := st.getD 1 0
  let c := st.getD 2 0
  let d := st.getD 3 0
  let e := st.getD 4 0
  let f := st.getD 5 0
  let g := st.getD 6 0
  let h := st.getD 7 0
  let s1 := rotr32 6 e ^^^ rotr32 11 e ^^^ rotr32 25 e
  let ch := (e &&& f) ^^^ ((0xffffffff ^^^ e) &&& g)
  let t1 := (h + s1 + ch + k + w) % 2 ^ 32
  let s0 := rotr32 2 a ^^^ rotr32 13 a ^^^ rotr32 22 a
  let maj := (a &&& b) ^^^ (a &&& c) ^^^ (b &&& c)
  let t2 := (s0 + maj) % 2 ^ 32
  [(t1 + t2) % 2 ^ 32, a, b, c, (d + t1) % 2 ^ 32, e, f, g]

/-- Compress one 64-byte block into the running hash state. -/
def compressBlock (hst block : List Nat) : List Nat :=
  let w := buildSched (toWords block)
  let st := (shaK.zip w).foldl (fun st kw => shaRound st kw.1 kw.2) hst
  List.zipWith (fun x y => (x + y) % 2 ^ 32) hst st

/-- Split a byte list into 64-byte blocks; the first argument is fuel
(any value at least the number of blocks, e.g. the list length). -/
def chunk64 : Nat → List Nat → List (List Nat)
  | 0, _ => []
  | _, [] => []
  | fuel + 1, l => l.take 64 :: chunk64 fuel (l.drop 64)

/-- SHA-256 of a byte list, as a 32-entry byte list. -/
def sha256 (msg : List Nat) : List Nat :=
  let padded := shaPad msg
  let hs := (chunk64 padded.length padded).foldl compressBlock shaH0
  (hs.map beBytes4).flatten

/-- The double SHA-256 (`bitcoin_hashes::sha256d::Hash`) used for the
Base58Check checksum. -/
def sha256d (msg : List Nat) : List Nat := sha256 (sha256 msg)

/-! ## Base58 (the `rust_base58` crate's `ToBase58` / `FromBase58`)

The crate treats the byte string as a big-endian base-256 number, emits its
base-58 digits, and maps each leading zero byte to a leading `'1'`;
decoding inverts this and fails on any character outside the alphabet. -/

/-- The 58-character Base58 alphabet. -/
def B58_ALPHABET : List Char :=
  "123456789ABCDEFGHJKLMNPQRSTUVWXYZabcdefghijkmnopqrstuvwxyz".data

/-- Position of a character in an alphabet segment, counting from `i`. -/
def b58IdxAux : List Char → Char → Nat → Option Nat
  | [], _, _ => none
  | a :: t, c, i => if a = c then some i else b58IdxAux t c (i + 1)

/-- Inverse alphabet lookup: the digit value of a character, `none` for a
character outside the alphabet. -/
def b58Index (c : Char) : Option Nat :=
  b58IdxAux B58_ALPHABET c 0

/-- Big-endian value of a digit list in base `b`. -/
def beNatBase (b : Nat) (l : List Nat) : Nat :=
  l.foldl (fun a d => b * a + d) 0

/-- Little-endian base-`b` digits of `n`, driven by explicit fuel so the
kernel can evaluate it (fuel `n` always suffices). -/
def digitsLEAux (b : Nat) : Nat → Nat → List Nat
  | 0, _ => []
  | fuel + 1, n => if n = 0 then [] else n % b :: digitsLEAux b fuel (n / b)

/-- Minimal big-endian base-256 byte rendering of `n` (empty for 0). -/
def bytesBE (n : Nat) : List Nat := (digitsLEAux 256 n n).reverse

/-- Minimal big-endian base-58 digit rendering of `n` (empty for 0). -/
def b58DigitsBE (n : Nat) : List Nat := (digitsLEAux 58 n n).reverse

/-- Number of leading zero entries of a list. -/
def countLeadingZeros : List Nat → Nat
  | [] => 0
  | a :: l => if a = 0 then countLeadingZeros l + 1 else 0

/-- The crate's `ToBase58::to_base58`: leading zero bytes become `'1'` characters, the
remaining value is written in base-58 digits. -/
def to_base58 (raw : List Nat) : String :=
  ⟨List.replicate (countLeadingZeros raw) '1' ++
    (b58DigitsBE (beNatBase 256 raw)).map (fun d => B58_ALPHABET.getD d '1')⟩

/-- Map every character to its digit value, failing on the first character
outside the alphabet. -/
def parseB58Chars : List Char → Option (List Nat)
  | [] => some []
  | c :: cs =>
    match b58Index c, parseB58Chars cs with
    | some d, some ds => some (d :: ds)
    | _, _ => none

/-- The crate's `FromBase58::from_base58`: digit values are read as a base-58 number,
rendered back as big-endian bytes, with one leading zero byte per leading
`'1'` (zero digit). Fails iff some character is outside the alphabet. -/
def from_base58 (s : String) : Option (List Nat) :=
  (parseB58Chars s.data).map
    (fun ds => List.replicate (countLeadingZeros ds) 0 ++ bytesBE (beNatBase 58 ds))

/-! ## Base58Codec (src/base58.rs) -/

/-- The version-byte table of `Base58Codec::encode` (src/base58.rs lines
11-18): test and regtest share version bytes. -/
def versionByte (hash_type : HashType) (network : Network) : Nat :=
  match hash_type, network with
  | HashType.Key, Network.Main => 0x00
  | HashType.Key, Network.Test => 0x6f
  | HashType.Key, Network.Regtest => 0x6f
  | HashType.Script, Network.Main => 0x05
  | HashType.Script, Network.Test => 0xc4
  | HashType.Script, Network.Regtest => 0xc4

/-- The inverse version-byte lookup of `Base58Codec::decode` (src/base58.rs
lines 37-43): the `match raw[0]` arms, `none` for the default arm. -/
def b58VersionLookup (v : Nat) : Option (Network × HashType) :=
  if v = 0x00 then some (Network.Main, HashType.Key)
  else if v = 0x05 then some (Network.Main, HashType.Script)
  else if v = 0x6f then some (Network.Test, HashType.Key)
  else if v = 0xc4 then some (Network.Test, HashType.Script)
  else none

namespace Base58Codec

/-- The string built by `Base58Codec::encode` (src/base58.rs lines 10-27):
version byte, then the raw bytes, then the first 4 bytes of the double
SHA-256 of version byte + raw bytes, all through `to_base58`. -/
def encodeStr (raw : List Nat) (hash_type : HashType) (network : Network) : String :=
  let body := versionByte hash_type network :: raw
  let checksum := (sha256d body).take 4
  to_base58 (body ++ checksum)

/-- Wrapper `Base58Codec::encode`: always `Ok` — the source has no error path. -/
def encode (raw : List Nat) (hash_type : HashType) (network : Network) :
    Except Base58Error String :=
  Except.ok (encodeStr raw hash_type network)

/-- Decoder `Base58Codec::decode` (src/base58.rs lines 29-61), with the source's
exact check order: base58 conversion (`Non58` on failure), length exactly
25 (`InvalidLength`), version-byte lookup (`InvalidNetwork`), checksum
comparison (`InvalidChecksum`), then the `Address` is built. -/
def decode (addr_str : String) : Except Base58Error Address :=
  match from_base58 addr_str with
  | none => Except.error Base58Error.Non58
  | some raw =>
    if raw.length ≠ 25 then Except.error Base58Error.InvalidLength
    else
      match b58VersionLookup (raw.getD 0 0) with
      | none => Except.error Base58Error.InvalidNetwork
      | some (network, hash_type) =>
        let payload := raw.take (raw.length - 4)
        let checksum_actual := raw.drop (raw.length - 4)
        let checksum_expected := sha256d payload
        if checksum_expected.take 4 ≠ checksum_actual then
          Except.error Base58Error.InvalidChecksum
        else
          Except.ok ⟨Scheme.Base58, payload.drop 1, hash_type, network⟩

end Base58Codec

/-- Decidable equality for `Except` results. -/
instance {ε α : Type} [DecidableEq ε] [DecidableEq α] : DecidableEq (Except ε α) := fun a b =>
  match a, b with
  | Except.ok x, Except.ok y =>
    if h : x = y then Decidable.isTrue (by rw [h])
    else Decidable.isFalse (fun hc => h (Except.ok.inj hc))
  | Except.ok _, Except.error _ => Decidable.isFalse (fun hc => Except.noConfusion hc)
  | Except.error _, Except.ok _ => Decidable.isFalse (fun hc => Except.noConfusion hc)
  | Except.error x, Except.error y =>
    if h : x = y then Decidable.isTrue (by rw [h])
    else Decidable.isFalse (fun hc => h (Except.error.inj hc))

/-! ## The phantom-typed `Address<C>` of src/lib.rs

src/lib.rs parameterizes `Address<C>` by the codec type; `into_base58` and
`into_cashaddr` (lines 94-110) rebuild the struct with the other codec
parameter, moving `body`, `hash_type` and `network` across unchanged. The
phantom parameter is modelled as a `Scheme` index. -/

/-- The `Address<C>` struct of src/lib.rs: `body`, phantom codec parameter
(the index `C`), `hash_type`, `network`. -/
structure AddressT (C : Scheme) where
  body : List Nat
  hash_type : HashType
  network : Network
deriving DecidableEq, Repr

/-- Conversion `Address::into_base58` (src/lib.rs lines 94-101). -/
def AddressT.into_base58 {C : Scheme} (a : AddressT C) : AddressT Scheme.Base58 :=
  { body := a.body, hash_type := a.hash_type, network := a.network }

/-- Conversion `Address::into_cashaddr` (src/lib.rs lines 103-110). -/
def AddressT.into_cashaddr {C : Scheme} (a : AddressT C) : AddressT Scheme.CashAddr :=
  { body := a.body, hash_type := a.hash_type, network := a.network }

/-! ## CashAddr codec

Modelled from the spec: the source file src/cashaddr.rs is not present in
this tree (only src/lib.rs re-exports `CashAddrCodec` and the doc example
uses it), so the codec below follows spec sections 4.2 and 6 word for
word: human-readable network prefix + `':'` + base-32 digits of the 5-bit
repacked version byte and body followed by 8 checksum digits from a 40-bit
BCH-style polymod (the spec fixes the algorithm shape; the five 40-bit
generator constants and the 32-character alphabet are the standard CashAddr
constants the spec's test vectors require). -/

/-- CashAddr decoding errors, from `CashAddrDecodingError` in
src/errors.rs (character payloads kept, byte payloads as `Nat`). -/
inductive CashAddrError where
  | InvalidLength (length : Nat)
  | NoPrefix
  | InvalidPrefix (p : String)
  | ChecksumFailed (residue : Nat)
  | InvalidChar (c : Char)
  | InvalidVersion (v : Nat)
  | MixedCase
deriving DecidableEq, Repr

/-- The 32-character CashAddr alphabet. -/
def CASH_CHARSET : List Char := "qpzry9x8gf2tvdw0s3jn54khce6mua7l".data

/-- Inverse CashAddr alphabet lookup. -/
def cashCharIndex (c : Char) : Option Nat :=
  CASH_CHARSET.findIdx? (fun x => x = c)

/-- Modelled from the spec: the human-readable network prefix, one fixed
string per network. -/
def cashHrp : Network → String
  | Network.Main => "bitcoincash"
  | Network.Test => "bchtest"
  | Network.Regtest => "bchreg"

/-- Modelled from the spec: the inverse prefix-to-network lookup. -/
def cashHrpLookup (p : String) : Option Network :=
  if p = "bitcoincash" then some Network.Main
  else if p = "bchtest" then some Network.Test
  else if p = "bchreg" then some Network.Regtest
  else none

/-- Modelled from the spec: one polymod step — shift the 40-bit
accumulator by 5, fold in the next digit, and XOR one fixed 40-bit
generator constant per designated high bit that was set before the
shift. -/
def polymodStep (c d : Nat) : Nat :=
  let c0 := c >>> 35
  let c1 := ((c &&& 0x07ffffffff) <<< 5) ^^^ d
  let c1 := if c0 &&& 1 ≠ 0 then c1 ^^^ 0x98f2bc8e61 else c1
  let c1 := if c0 &&& 2 ≠ 0 then c1 ^^^ 0x79b76d99e2 else c1
  let c1 := if c0 &&& 4 ≠ 0 then c1 ^^^ 0xf33e5fb3c4 else c1
  let c1 := if c0 &&& 8 ≠ 0 then c1 ^^^ 0xae2eabe2a8 else c1
  if c0 &&& 16 ≠ 0 then c1 ^^^ 0x1e4f43e470 else c1

/-- Modelled from the spec: the BCH-style polymod over a digit sequence,
accumulator initialized to 1, final accumulator XORed with 1. -/
def polymod (ds : List Nat) : Nat :=
  (ds.foldl polymodStep 1) ^^^ 1

/-- Modelled from the spec: expand the prefix into 5-bit values (lower 5
bits of each character) plus a zero separator value. -/
def hrpExpand (p : String) : List Nat :=
  p.data.map (fun c => c.toNat &&& 31) ++ [0]

/-- The 8 bits of a byte, most significant first. -/
def byteToBits (b : Nat) : List Nat :=
  [(b >>> 7) &&& 1, (b >>> 6) &&& 1, (b >>> 5) &&& 1, (b >>> 4) &&& 1,
   (b >>> 3) &&& 1, (b >>> 2) &&& 1, (b >>> 1) &&& 1, b &&& 1]

/-- The 5 bits of a base-32 digit, most significant first. -/
def digit5Bits (d : Nat) : List Nat :=
  [(d >>> 4) &&& 1, (d >>> 3) &&& 1, (d >>> 2) &&& 1, (d >>> 1) &&& 1, d &&& 1]

/-- Value of a most-significant-first bit list. -/
def bitsToNum (l : List Nat) : Nat :=
  l.foldl (fun a x => 2 * a + x) 0

/-- Modelled from the spec: regroup a bit sequence into 5-bit digits,
zero-padding the final partial group; fuel-driven recursion. -/
def group5 : Nat → List Nat → List Nat
  | 0, _ => []
  | _, [] => []
  | fuel + 1, l =>
    bitsToNum (l.take 5 ++ List.replicate (5 - (l.take 5).length) 0) ::
      group5 fuel (l.drop 5)

/-- Modelled from the spec: regroup a bit sequence into bytes, keeping
only the complete 8-bit groups; fuel-driven recursion. -/
def group8 : Nat → List Nat → List Nat
  | 0, _ => []
  | _, [] => []
  | fuel + 1, l =>
    if l.length < 8 then [] else bitsToNum (l.take 8) :: group8 fuel (l.drop 8)

/-- Modelled from the spec: the supported hash byte-length size classes,
in version-byte low-bits order. -/
def sizeClasses : List Nat := [20, 24, 28, 32, 40, 48, 56, 64]

/-- Modelled from the spec: build the CashAddr version byte from the hash
type (bits 6..3) and the size class of the body length (bits 2..0);
`none` for an unsupported length. -/
def cashVersionByte (hash_type : HashType) (len : Nat) : Option Nat :=
  (sizeClasses.findIdx? (fun x => x = len)).map
    (fun s => (match hash_type with | HashType.Key => 0 | HashType.Script => 1) <<< 3 ||| s)

/-- Modelled from the spec: the supported total digit counts, payload
digits plus 8 checksum digits, one per size class. -/
def cashDigitCounts : List Nat :=
  sizeClasses.map (fun n => (8 * (n + 1) + 4) / 5 + 8)

namespace CashAddrCodec

/-- Modelled from the spec: CashAddr encode — version byte + body repacked
to 5-bit digits, 8 checksum digits from the polymod over the expanded
prefix, the payload digits, and 8 zero placeholders, all mapped through
the base-32 alphabet after the prefix and `':'`.  Fails (with the
`CashAddrInvalidLength` length payload of src/errors.rs) only for an
unsupported body length. -/
def encode (raw : List Nat) (hash_type : HashType) (network : Network) :
    Except Nat String :=
  match cashVersionByte hash_type raw.length with
  | none => Except.error raw.length
  | some v =>
    let bits := ((v :: raw).map byteToBits).flatten
    let payload5 := group5 bits.length bits
    let cs := polymod (hrpExpand (cashHrp network) ++ payload5 ++ List.replicate 8 0)
    let csDigits := (List.range 8).map (fun i => (cs >>> (5 * (7 - i))) &&& 31)
    Except.ok (cashHrp network ++ ":" ++
      ⟨(payload5 ++ csDigits).map (fun d => CASH_CHARSET.getD d 'q')⟩)

/-- Map base-32 characters to digit values, failing on the first character
outside the alphabet. -/
def parseDigits : List Char → Option (List Nat)
  | [] => some []
  | c :: cs =>
    match cashCharIndex c, parseDigits cs with
    | some d, some ds => some (d :: ds)
    | _, _ => none

/-- Modelled from the spec: the post-split validation pipeline of CashAddr
decode — validate prefix and digit characters, check the digit count,
require a zero polymod residue over expanded prefix and all digits, repack
the payload digits into bytes rejecting nonzero padding bits, split the
version byte into hash type and size class, and map the prefix to a
network. -/
def decodeParts (hrp payload : String) : Except CashAddrError Address :=
  match hrp.data.find? (fun c => ¬ (97 ≤ c.toNat ∧ c.toNat ≤ 122)) with
    | some _ => Except.error (CashAddrError.InvalidPrefix hrp)
    | none =>
      match payload.data.find? (fun c => cashCharIndex c = none) with
      | some c => Except.error (CashAddrError.InvalidChar c)
      | none =>
        match parseDigits payload.data with
        | none => Except.error (CashAddrError.InvalidChar ' ')
        | some ds =>
          if ¬ ds.length ∈ cashDigitCounts then
            Except.error (CashAddrError.InvalidLength ds.length)
          else
            let residue := polymod (hrpExpand hrp ++ ds)
            if residue ≠ 0 then Except.error (CashAddrError.ChecksumFailed residue)
            else
              let bits := ((ds.take (ds.length - 8)).map digit5Bits).flatten
              let bytes := group8 bits.length bits
              let pad := bits.drop (8 * (bits.length / 8))
              if pad.any (fun b => b ≠ 0) then
                Except.error (CashAddrError.InvalidLength ds.length)
              else
                match bytes with
                | [] => Except.error (CashAddrError.InvalidLength 0)
                | v :: body =>
                  match
                    (match v >>> 3 with
                     | 0 => some HashType.Key
                     | 1 => some HashType.Script
                     | _ => none) with
                  | none => Except.error (CashAddrError.InvalidVersion v)
                  | some hash_type =>
                    if sizeClasses.getD (v &&& 7) 0 ≠ body.length then
                      Except.error (CashAddrError.InvalidVersion v)
                    else
                      match cashHrpLookup hrp with
                      | none => Except.error (CashAddrError.InvalidPrefix hrp)
                      | some network =>
                        Except.ok ⟨Scheme.CashAddr, body, hash_type, network⟩

/-- Split a character list at its first `':'`. -/
def splitAtColon : List Char → List Char × List Char
  | [] => ([], [])
  | c :: t =>
    if c = ':' then ([], t)
    else
      let pr := splitAtColon t
      (c :: pr.1, pr.2)

/-- Modelled from the spec: CashAddr decode — reject empty and mixed-case
input, lowercase the rest, split off the prefix at `':'` (defaulting to
the main-network prefix when absent, multiple separators rejected), then
run the validation pipeline `decodeParts`. -/
def decode (s : String) : Except CashAddrError Address :=
  if s.data.isEmpty then Except.error (CashAddrError.InvalidLength 0)
  else if s.data.any Char.isUpper && s.data.any Char.isLower then
    Except.error CashAddrError.MixedCase
  else
    let low := s.data.map Char.toLower
    if low.countP (fun c => c = ':') = 0 then decodeParts "bitcoincash" ⟨low⟩
    else if low.countP (fun c => c = ':') = 1 then
      let pr := splitAtColon low
      decodeParts ⟨pr.1⟩ ⟨pr.2⟩
    else Except.error CashAddrError.NoPrefix

end CashAddrCodec

/-! ## Concrete material for the claims -/

/-- The known-vector 20-byte hash160 body
`ea2407829a5055466b27784cde8cf463167946bf`. -/
def vecBody : List Nat :=
  [0xea, 0x24, 0x07, 0x82, 0x9a, 0x50, 0x55, 0x46, 0x6b, 0x27,
   0x78, 0x4c, 0xde, 0x8c, 0xf4, 0x63, 0x16, 0x79, 0x46, 0xbf]

/-- The 20-byte body of the valid address
`15cvx9VBJPzCHq9XCFYEhcE2ZUm2jeCeJF`, found by exhaustive search as one
half of a single-character checksum collision pair. -/
def flipBodyA : List Nat :=
  [0x32, 0xac, 0x19, 0x00, 0x00, 0x00, 0x00, 0x00, 0xab, 0xab,
   0xab, 0xab, 0xab, 0xab, 0xab, 0xab, 0xab, 0xab, 0xab, 0xab]

/-- The 20-byte body of the valid address
`15cvx9VBJPzCHq9XCFYEhcE2KUm2jeCeJF`, which differs from the previous
address in exactly one character yet also passes the double-SHA-256
checksum, with a different body. -/
def flipBodyB : List Nat :=
  [0x32, 0xac, 0x19, 0x00, 0x00, 0x00, 0x00, 0x00, 0xab, 0xab,
   0xab, 0xab, 0xab, 0xab, 0xab, 0xab, 0xaa, 0x3a, 0x3b, 0xd7]

/-- How `Base58Codec::decode` reports the network of a re-decoded address:
the Base58 format cannot represent Regtest, which comes back as Test. -/
def collapseNet : Network → Network
  | Network.Main => Network.Main
  | Network.Test => Network.Test
  | Network.Regtest => Network.Test

end BchAddr
namespace BchAddr

/-! ### Base-conversion lemmas -/

theorem beNatBase_reverse (b : Nat) (L : List Nat) :
    beNatBase b L.reverse = Nat.ofDigits b L := by
  induction L with
  | nil => simp [beNatBase, Nat.ofDigits]
  | cons x L ih =>
    rw [List.reverse_cons, beNatBase, List.foldl_append]
    simp only [List.foldl]
    rw [show (List.foldl (fun a d => b * a + d) 0 L.reverse) = beNatBase b L.reverse from rfl, ih,
      Nat.ofDigits_cons]
    ring

theorem digitsLEAux_eq (b : Nat) (hb : 1 < b) :
    ∀ fuel n, n ≤ fuel → digitsLEAux b fuel n = Nat.digits b n := by
  intro fuel
  induction fuel with
  | zero =>
    intro n hn
    interval_cases n
    simp [digitsLEAux]
  | succ f ih =>
    intro n hn
    by_cases h : n = 0
    · subst h; simp [digitsLEAux]
    · rw [digitsLEAux, if_neg h, Nat.digits_def' hb (Nat.pos_of_ne_zero h),
        ih (n / b) ?_]
      have h1 : n / b < n := Nat.div_lt_self (Nat.pos_of_ne_zero h) hb
      omega

theorem bytesBE_eq (n : Nat) : bytesBE n = (Nat.digits 256 n).reverse := by
  rw [bytesBE, digitsLEAux_eq 256 (by norm_num) n n le_rfl]

theorem b58DigitsBE_eq (n : Nat) : b58DigitsBE n = (Nat.digits 58 n).reverse := by
  rw [b58DigitsBE, digitsLEAux_eq 58 (by norm_num) n n le_rfl]

theorem beNatBase_digits_reverse (b : Nat) (n : Nat) :
    beNatBase b (Nat.digits b n).reverse = n := by
  rw [beNatBase_reverse, Nat.ofDigits_digits]

theorem foldl_mul_add_replicate_zero (b z : Nat) :
    List.foldl (fun a d => b * a + d) 0 (List.replicate z 0) = 0 := by
  induction z with
  | zero => rfl
  | succ z ih => simpa [List.replicate_succ] using ih

theorem beNatBase_replicate_append (b z : Nat) (L : List Nat) :
    beNatBase b (List.replicate z 0 ++ L) = beNatBase b L := by
  rw [beNatBase, List.foldl_append, foldl_mul_add_replicate_zero]
  rfl

theorem foldl_mul_add_le (b : Nat) (hb : 1 ≤ b) :
    ∀ (l : List Nat) (a : Nat), a ≤ List.foldl (fun x d => b * x + d) a l := by
  intro l
  induction l with
  | nil => intro a; simp
  | cons x t ih =>
    intro a
    calc a ≤ b * a + x := by nlinarith
    _ ≤ List.foldl (fun x d => b * x + d) (b * a + x) t := ih _
    _ = List.foldl (fun x d => b * x + d) a (x :: t) := rfl

theorem beNatBase_eq_zero (b : Nat) (hb : 1 ≤ b) :
    ∀ l : List Nat, beNatBase b l = 0 → l = List.replicate l.length 0 := by
  intro l
  induction l with
  | nil => intro _; rfl
  | cons d t ih =>
    intro h0
    have hfold : List.foldl (fun x d => b * x + d) (b * 0 + d) t = 0 := h0
    have hle := foldl_mul_add_le b hb t (b * 0 + d)
    have hd0 : d = 0 := by omega
    subst hd0
    have ht : beNatBase b t = 0 := by
      rw [beNatBase, show (0 : Nat) = b * 0 + 0 by ring]
      exact hfold
    rw [List.length_cons, List.replicate_succ]
    exact congrArg (0 :: ·) (ih ht)

/-! ### Leading-zero decomposition -/

theorem countLeadingZeros_le (l : List Nat) : countLeadingZeros l ≤ l.length := by
  induction l with
  | nil => simp [countLeadingZeros]
  | cons a t ih =>
    rw [countLeadingZeros]
    split
    · simpa using ih
    · simp

theorem replicate_append_drop_cLZ (l : List Nat) :
    l = List.replicate (countLeadingZeros l) 0 ++ l.drop (countLeadingZeros l) := by
  induction l with
  | nil => rfl
  | cons a t ih =>
    rw [countLeadingZeros]
    split
    · next h =>
      subst h
      rw [List.replicate_succ, List.cons_append, List.drop_succ_cons]
      exact congrArg (0 :: ·) ih
    · simp

theorem head?_drop_cLZ (l : List Nat) (hd : Nat)
    (h : (l.drop (countLeadingZeros l)).head? = some hd) : hd ≠ 0 := by
  induction l with
  | nil => simp [countLeadingZeros] at h
  | cons a t ih =>
    rw [countLeadingZeros] at h
    split at h
    · rw [List.drop_succ_cons] at h
      exact ih h
    · next hne =>
      rw [List.drop_zero, List.head?_cons] at h
      cases h
      exact hne

theorem cLZ_replicate (z : Nat) : countLeadingZeros (List.replicate z 0) = z := by
  induction z with
  | zero => rfl
  | succ z ih => rw [List.replicate_succ, countLeadingZeros, if_pos rfl, ih]

theorem cLZ_replicate_append (z : Nat) (D : List Nat) (d : Nat) (hD : D.head? = some d)
    (hd : d ≠ 0) : countLeadingZeros (List.replicate z 0 ++ D) = z := by
  induction z with
  | zero =>
    cases D with
    | nil => simp at hD
    | cons x t =>
      rw [List.head?_cons] at hD
      cases hD
      simpa [countLeadingZeros] using hd
  | succ z ih =>
    rw [List.replicate_succ, List.cons_append, countLeadingZeros, if_pos rfl, ih]

end BchAddr

namespace BchAddr

/-! ### Alphabet and digit-parsing lemmas -/

theorem b58Index_alphabet : ∀ d, d < 58 → b58Index (B58_ALPHABET.getD d '1') = some d := by
  decide

theorem b58Index_one : b58Index '1' = some 0 := by decide

theorem parseB58Chars_append (l1 l2 : List Char) :
    parseB58Chars (l1 ++ l2) =
      (parseB58Chars l1).bind (fun a => (parseB58Chars l2).map (a ++ ·)) := by
  induction l1 with
  | nil =>
    rw [List.nil_append, show parseB58Chars [] = some [] from rfl]
    cases hpl : parseB58Chars l2 <;> simp [hpl]
  | cons c t ih =>
    rw [List.cons_append, parseB58Chars, ih, parseB58Chars]
    cases b58Index c <;> cases parseB58Chars t <;> cases parseB58Chars l2 <;> rfl

theorem parseB58Chars_replicate_one (z : Nat) :
    parseB58Chars (List.replicate z '1') = some (List.replicate z 0) := by
  induction z with
  | zero => rfl
  | succ z ih =>
    rw [List.replicate_succ, List.replicate_succ, parseB58Chars, b58Index_one, ih]

theorem parseB58Chars_map_alphabet (D : List Nat) (h : ∀ d ∈ D, d < 58) :
    parseB58Chars (D.map (fun d => B58_ALPHABET.getD d '1')) = some D := by
  induction D with
  | nil => rfl
  | cons d t ih =>
    rw [List.map_cons, parseB58Chars, b58Index_alphabet d (h d (List.mem_cons_self d t)),
      ih (fun x hx => h x (List.mem_cons_of_mem d hx))]

theorem parseB58Chars_none_of_mem (l : List Char) (c : Char) (hc : c ∈ l)
    (hnone : b58Index c = none) : parseB58Chars l = none := by
  induction l with
  | nil => simp at hc
  | cons a t ih =>
    rw [parseB58Chars]
    rcases List.mem_cons.mp hc with h | h
    · subst h
      rw [hnone]
    · rw [ih h]
      cases b58Index a <;> rfl

/-! ### The base58 round trip -/

theorem from_base58_mk (l : List Char) :
    from_base58 ⟨l⟩ = (parseB58Chars l).map
      (fun ds => List.replicate (countLeadingZeros ds) 0 ++ bytesBE (beNatBase 58 ds)) := rfl

theorem from_to_base58 (raw : List Nat) (h : ∀ x ∈ raw, x < 256) :
    from_base58 (to_base58 raw) = some raw := by
  set z := countLeadingZeros raw with hz
  set t := raw.drop z with hts
  have hsplit : raw = List.replicate z 0 ++ t := replicate_append_drop_cLZ raw
  set n := beNatBase 256 raw with hn
  have hnt : n = beNatBase 256 t := by
    rw [hn]
    conv_lhs => rw [hsplit]
    rw [beNatBase_replicate_append]
  by_cases h0 : n = 0
  · -- all bytes are zero
    have ht0 : t = List.replicate t.length 0 := beNatBase_eq_zero 256 (by norm_num) t (by rw [← hnt, h0])
    -- then the head of t would be nonzero unless t is empty
    have htnil : t = [] := by
      cases hteq : t with
      | nil => rfl
      | cons a s =>
        have : a ≠ 0 := head?_drop_cLZ raw a (by rw [← hts, hteq, List.head?_cons])
        rw [hteq] at ht0
        simp [List.replicate_succ] at ht0
        exact absurd ht0.1 this
    have hraw : raw = List.replicate z 0 := by rw [hsplit, htnil, List.append_nil]
    rw [to_base58, ← hn, h0]
    have hB : b58DigitsBE 0 = [] := rfl
    rw [hB, ← hz, List.map_nil, List.append_nil, from_base58_mk,
      parseB58Chars_replicate_one z]
    have hz0 : countLeadingZeros (List.replicate z 0) = z := cLZ_replicate z
    have hval : beNatBase 58 (List.replicate z 0) = 0 := by
      rw [show (List.replicate z 0 : List Nat) = List.replicate z 0 ++ [] by simp,
        beNatBase_replicate_append]
      rfl
    simp only [Option.map_some']
    rw [hz0, hval]
    have hb0 : bytesBE 0 = [] := rfl
    rw [hb0, List.append_nil, hraw]
  · -- nonzero value
    have htne : t ≠ [] := by
      intro hteq
      rw [hnt, hteq] at h0
      exact h0 rfl
    obtain ⟨hd, s, hteq⟩ := List.exists_cons_of_ne_nil htne
    have hhd : hd ≠ 0 := head?_drop_cLZ raw hd (by rw [← hts, hteq, List.head?_cons])
    set D := b58DigitsBE n with hD
    have hDd : D = (Nat.digits 58 n).reverse := b58DigitsBE_eq n
    have hDlt : ∀ d ∈ D, d < 58 := by
      intro d hdm
      rw [hDd, List.mem_reverse] at hdm
      exact Nat.digits_lt_base (by norm_num) hdm
    have hDhead : ∃ d0, D.head? = some d0 ∧ d0 ≠ 0 := by
      have hne : Nat.digits 58 n ≠ [] := Nat.digits_ne_nil_iff_ne_zero.mpr h0
      refine ⟨(Nat.digits 58 n).getLast hne, ?_, Nat.getLast_digit_ne_zero 58 h0⟩
      rw [hDd, List.head?_reverse, List.getLast?_eq_getLast _ hne]
    obtain ⟨d0, hDh, hd0⟩ := hDhead
    rw [to_base58, ← hn, ← hz, ← hD, from_base58_mk,
      parseB58Chars_append, parseB58Chars_replicate_one,
      parseB58Chars_map_alphabet D hDlt]
    simp only [Option.some_bind', Option.map_some']
    rw [cLZ_replicate_append z D d0 hDh hd0]
    have hval : beNatBase 58 (List.replicate z 0 ++ D) = n := by
      rw [beNatBase_replicate_append, hDd, beNatBase_digits_reverse]
    rw [hval]
    have hbytes : bytesBE n = t := by
      have htlt : ∀ x ∈ t.reverse, x < 256 := by
        intro x hx
        rw [List.mem_reverse] at hx
        exact h x (hsplit ▸ List.mem_append_right _ hx)
      have htlast : ∀ hne : t.reverse ≠ [], t.reverse.getLast hne ≠ 0 := by
        intro hne
        have h1 : t.reverse.getLast? = some (t.reverse.getLast hne) :=
          List.getLast?_eq_getLast _ hne
        have h2 : t.reverse.getLast? = t.head? := List.getLast?_reverse t
        have h3 : t.head? = some hd := by rw [hteq]; rfl
        rw [h2, h3] at h1
        intro hcon
        rw [hcon] at h1
        exact hhd (Option.some.inj h1)
      have hofd : Nat.ofDigits 256 t.reverse = n := by
        rw [← beNatBase_reverse, List.reverse_reverse, ← hnt]
      rw [bytesBE_eq, ← hofd, Nat.digits_ofDigits 256 (by norm_num) t.reverse htlt htlast,
        List.reverse_reverse]
    rw [hbytes, ← hsplit]

end BchAddr

namespace BchAddr

/-! ### SHA-256 output shape -/

theorem shaRound_length (st : List Nat) (k w : Nat) : (shaRound st k w).length = 8 := by
  rfl

theorem foldl_shaRound_length (l : List (Nat × Nat)) (st : List Nat) (h : st.length = 8) :
    (l.foldl (fun st kw => shaRound st kw.1 kw.2) st).length = 8 := by
  induction l generalizing st with
  | nil => simpa using h
  | cons p t ih => exact ih _ (shaRound_length _ _ _)

theorem compressBlock_length (hst block : List Nat) (h : hst.length = 8) :
    (compressBlock hst block).length = 8 := by
  rw [compressBlock, List.length_zipWith, h,
    foldl_shaRound_length _ _ h]
  omega

theorem foldl_compressBlock_length (bs : List (List Nat)) (st : List Nat) (h : st.length = 8) :
    (bs.foldl compressBlock st).length = 8 := by
  induction bs generalizing st with
  | nil => simpa using h
  | cons b t ih => exact ih _ (compressBlock_length _ _ h)

theorem flatten_map_beBytes4_length (l : List Nat) :
    ((l.map beBytes4).flatten).length = 4 * l.length := by
  induction l with
  | nil => rfl
  | cons x t ih =>
    rw [List.map_cons, List.flatten_cons, List.length_append, ih]
    simp [beBytes4]
    ring

theorem sha256_length (msg : List Nat) : (sha256 msg).length = 32 := by
  rw [sha256, flatten_map_beBytes4_length, foldl_compressBlock_length _ _ (by rfl)]

theorem sha256_lt (msg : List Nat) : ∀ x ∈ sha256 msg, x < 256 := by
  intro x hx
  rw [sha256] at hx
  obtain ⟨b, hb, hxb⟩ := List.mem_flatten.mp hx
  obtain ⟨w, _, hwb⟩ := List.mem_map.mp hb
  subst hwb
  simp only [beBytes4, List.mem_cons, List.not_mem_nil, or_false] at hxb
  rcases hxb with h | h | h | h <;> rw [h] <;> exact Nat.mod_lt _ (by norm_num)

theorem sha256d_length (msg : List Nat) : (sha256d msg).length = 32 :=
  sha256_length _

theorem sha256d_lt (msg : List Nat) : ∀ x ∈ sha256d msg, x < 256 :=
  sha256_lt _

/-! ### Version byte facts -/

theorem versionByte_lt (ht : HashType) (nw : Network) : versionByte ht nw < 256 := by
  cases ht <;> cases nw <;> decide

theorem b58VersionLookup_versionByte (ht : HashType) (nw : Network) :
    b58VersionLookup (versionByte ht nw) = some (collapseNet nw, ht) := by
  cases ht <;> cases nw <;> decide

theorem b58VersionLookup_ne_regtest (v : Nat) (p : Network × HashType)
    (h : b58VersionLookup v = some p) : p.1 ≠ Network.Regtest := by
  rw [b58VersionLookup] at h
  split_ifs at h <;> cases h <;> decide

/-! ### Reduction lemmas for `Base58Codec.decode` -/

theorem decode_none (s : String) (h : from_base58 s = none) :
    Base58Codec.decode s = Except.error Base58Error.Non58 := by
  rw [Base58Codec.decode, h]

theorem decode_some (s : String) (raw : List Nat) (h : from_base58 s = some raw) :
    Base58Codec.decode s =
      (if raw.length ≠ 25 then Except.error Base58Error.InvalidLength
       else
         match b58VersionLookup (raw.getD 0 0) with
         | none => Except.error Base58Error.InvalidNetwork
         | some (network, hash_type) =>
           if (sha256d (raw.take (raw.length - 4))).take 4 ≠ raw.drop (raw.length - 4) then
             Except.error Base58Error.InvalidChecksum
           else
             Except.ok ⟨Scheme.Base58, (raw.take (raw.length - 4)).drop 1,
               hash_type, network⟩) := by
  rw [Base58Codec.decode, h]

theorem decode_invalid_length (s : String) (raw : List Nat)
    (h : from_base58 s = some raw) (hlen : raw.length ≠ 25) :
    Base58Codec.decode s = Except.error Base58Error.InvalidLength := by
  rw [decode_some s raw h, if_pos hlen]

theorem decode_invalid_version (s : String) (raw : List Nat)
    (h : from_base58 s = some raw) (hlen : raw.length = 25)
    (hlook : b58VersionLookup (raw.getD 0 0) = none) :
    Base58Codec.decode s = Except.error Base58Error.InvalidNetwork := by
  rw [decode_some s raw h, if_neg (by omega), hlook]

theorem decode_invalid_checksum (s : String) (raw : List Nat) (p : Network × HashType)
    (h : from_base58 s = some raw) (hlen : raw.length = 25)
    (hlook : b58VersionLookup (raw.getD 0 0) = some p)
    (hck : (sha256d (raw.take 21)).take 4 ≠ raw.drop 21) :
    Base58Codec.decode s = Except.error Base58Error.InvalidChecksum := by
  rw [decode_some s raw h, if_neg (by omega), hlook]
  obtain ⟨nw, ht⟩ := p
  dsimp only
  rw [hlen]
  rw [if_pos (by norm_num; exact hck)]

theorem decode_ok (s : String) (raw : List Nat) (nw : Network) (ht : HashType)
    (h : from_base58 s = some raw) (hlen : raw.length = 25)
    (hlook : b58VersionLookup (raw.getD 0 0) = some (nw, ht))
    (hck : (sha256d (raw.take 21)).take 4 = raw.drop 21) :
    Base58Codec.decode s =
      Except.ok ⟨Scheme.Base58, (raw.take 21).drop 1, ht, nw⟩ := by
  rw [decode_some s raw h, if_neg (by omega), hlook]
  dsimp only
  rw [hlen]
  rw [if_neg (by norm_num; exact hck)]

/-! ### The Base58 round trip through the codec -/

theorem decode_encodeStr (body : List Nat) (hlen : body.length = 20)
    (hb : ∀ x ∈ body, x < 256) (ht : HashType) (nw : Network) :
    Base58Codec.decode (Base58Codec.encodeStr body ht nw) =
      Except.ok ⟨Scheme.Base58, body, ht, collapseNet nw⟩ := by
  rw [Base58Codec.encodeStr]
  set v := versionByte ht nw with hv
  set cs := (sha256d (v :: body)).take 4 with hcs
  have hcslen : cs.length = 4 := by
    rw [hcs, List.length_take, sha256d_length]
    omega
  have hrawlen : (v :: body ++ cs).length = 25 := by
    simp [hlen, hcslen]
  have hrawlt : ∀ x ∈ v :: body ++ cs, x < 256 := by
    intro x hx
    rcases List.mem_cons.mp hx with h | h
    · rw [h, hv]; exact versionByte_lt ht nw
    · rcases List.mem_append.mp h with h | h
      · exact hb x h
      · exact sha256d_lt _ x (List.mem_of_mem_take h)
  have htake : (v :: body ++ cs).take 21 = v :: body := by
    have h21 : (21 : Nat) = (v :: body).length := by simp [hlen]
    rw [h21, List.take_left]
  have hdrop : (v :: body ++ cs).drop 21 = cs := by
    have h21 : (21 : Nat) = (v :: body).length := by simp [hlen]
    rw [h21, List.drop_left]
  have hlook : b58VersionLookup ((v :: body ++ cs).getD 0 0) = some (collapseNet nw, ht) := by
    rw [show (v :: body ++ cs).getD 0 0 = v from rfl, hv]
    exact b58VersionLookup_versionByte ht nw
  have hck : (sha256d ((v :: body ++ cs).take 21)).take 4 = (v :: body ++ cs).drop 21 := by
    rw [htake, hdrop, hcs]
  rw [decode_ok _ _ _ _ (from_to_base58 _ hrawlt) hrawlen hlook hck, htake]
  rfl

end BchAddr

namespace BchAddr

/-! ### Alphabet lookup characterization -/

theorem b58IdxAux_some (c : Char) :
    ∀ (l : List Char) (i d : Nat), b58IdxAux l c i = some d →
      i ≤ d ∧ d - i < l.length ∧ l.getD (d - i) ' ' = c := by
  intro l
  induction l with
  | nil => intro i d h; exact absurd h (by simp [b58IdxAux])
  | cons a t ih =>
    intro i d h
    rw [b58IdxAux] at h
    split at h
    · next ha =>
      cases h
      refine ⟨le_rfl, by simp, ?_⟩
      simpa using ha
    · obtain ⟨h1, h2, h3⟩ := ih (i + 1) d h
      refine ⟨by omega, by simp; omega, ?_⟩
      have hd : d - i = (d - (i + 1)) + 1 := by omega
      rw [hd]
      simpa using h3

theorem b58Index_some (c : Char) (d : Nat) (h : b58Index c = some d) :
    d < 58 ∧ B58_ALPHABET.getD d ' ' = c := by
  obtain ⟨_, h2, h3⟩ := b58IdxAux_some c B58_ALPHABET 0 d h
  simp only [Nat.sub_zero] at h2 h3
  exact ⟨by simpa [B58_ALPHABET] using h2, h3⟩

theorem b58Index_inj (c1 c2 : Char) (d : Nat)
    (h1 : b58Index c1 = some d) (h2 : b58Index c2 = some d) : c1 = c2 := by
  rw [← (b58Index_some c1 d h1).2, ← (b58Index_some c2 d h2).2]

/-! ### Parse results, positionwise -/

theorem parseB58Chars_length :
    ∀ (l : List Char) (ds : List Nat), parseB58Chars l = some ds → ds.length = l.length := by
  intro l
  induction l with
  | nil => intro ds h; cases h; rfl
  | cons c t ih =>
    intro ds h
    rw [parseB58Chars] at h
    cases hc : b58Index c with
    | none => rw [hc] at h; cases h
    | some d =>
      rw [hc] at h
      cases ht : parseB58Chars t with
      | none => rw [ht] at h; cases h
      | some ds0 =>
        rw [ht] at h
        cases h
        simp [ih ds0 ht]

theorem parseB58Chars_lt :
    ∀ (l : List Char) (ds : List Nat), parseB58Chars l = some ds → ∀ x ∈ ds, x < 58 := by
  intro l
  induction l with
  | nil => intro ds h; cases h; intro x hx; simp at hx
  | cons c t ih =>
    intro ds h
    rw [parseB58Chars] at h
    cases hc : b58Index c with
    | none => rw [hc] at h; cases h
    | some d =>
      rw [hc] at h
      cases ht : parseB58Chars t with
      | none => rw [ht] at h; cases h
      | some ds0 =>
        rw [ht] at h
        cases h
        intro x hx
        rcases List.mem_cons.mp hx with hx | hx
        · rw [hx]; exact (b58Index_some c d hc).1
        · exact ih ds0 ht x hx

theorem parseB58Chars_getD :
    ∀ (l : List Char) (ds : List Nat), parseB58Chars l = some ds →
      ∀ i, i < l.length → b58Index (l.getD i ' ') = some (ds.getD i 0) := by
  intro l
  induction l with
  | nil => intro ds h i hi; simp at hi
  | cons c t ih =>
    intro ds h i hi
    rw [parseB58Chars] at h
    cases hc : b58Index c with
    | none => rw [hc] at h; cases h
    | some d =>
      rw [hc] at h
      cases ht : parseB58Chars t with
      | none => rw [ht] at h; cases h
      | some ds0 =>
        rw [ht] at h
        cases h
        cases i with
        | zero => simpa using hc
        | succ j =>
          have hj : j < t.length := by simpa using hi
          simpa using ih ds0 ht j hj

theorem parseB58Chars_set :
    ∀ (l : List Char) (ds : List Nat) (i : Nat) (c : Char) (d : Nat),
      parseB58Chars l = some ds → b58Index c = some d →
      parseB58Chars (l.set i c) = some (ds.set i d) := by
  intro l
  induction l with
  | nil => intro ds i c d h _; cases h; simp [parseB58Chars]
  | cons a t ih =>
    intro ds i c d h hc
    rw [parseB58Chars] at h
    cases ha : b58Index a with
    | none => rw [ha] at h; cases h
    | some d0 =>
      rw [ha] at h
      cases ht : parseB58Chars t with
      | none => rw [ht] at h; cases h
      | some ds0 =>
        rw [ht] at h
        cases h
        cases i with
        | zero =>
          rw [List.set_cons_zero, List.set_cons_zero, parseB58Chars, hc, ht]
        | succ j =>
          rw [List.set_cons_succ, List.set_cons_succ, parseB58Chars, ha,
            ih ds0 j c d ht hc]

/-! ### List positional helpers -/

theorem getD_set_self {α : Type} (d : α) :
    ∀ (l : List α) (i : Nat) (c : α), i < l.length → (l.set i c).getD i d = c := by
  intro l
  induction l with
  | nil => intro i c hi; simp at hi
  | cons a t ih =>
    intro i c hi
    cases i with
    | zero => rfl
    | succ j => simpa using ih j c (by simpa using hi)

theorem mem_set_self {α : Type} :
    ∀ (l : List α) (i : Nat) (c : α), i < l.length → c ∈ l.set i c := by
  intro l
  induction l with
  | nil => intro i c hi; simp at hi
  | cons a t ih =>
    intro i c hi
    cases i with
    | zero => exact List.mem_cons_self c t
    | succ j =>
      rw [List.set_cons_succ]
      exact List.mem_cons_of_mem a (ih j c (by simpa using hi))

theorem list_decomp {α : Type} (d : α) :
    ∀ (l : List α) (i : Nat), i < l.length →
      l = l.take i ++ l.getD i d :: l.drop (i + 1) := by
  intro l
  induction l with
  | nil => intro i hi; simp at hi
  | cons a t ih =>
    intro i hi
    cases i with
    | zero => simp
    | succ j =>
      have := ih j (by simpa using hi)
      simpa using this

theorem set_decomp {α : Type} :
    ∀ (l : List α) (i : Nat) (c : α), i < l.length →
      l.set i c = l.take i ++ c :: l.drop (i + 1) := by
  intro l
  induction l with
  | nil => intro i c hi; simp at hi
  | cons a t ih =>
    intro i c hi
    cases i with
    | zero => simp
    | succ j =>
      have := ih j c (by simpa using hi)
      simpa using this

/-! ### Digit-value arithmetic -/

theorem foldl_mul_add_shift (b : Nat) :
    ∀ (l : List Nat) (a : Nat),
      List.foldl (fun x d => b * x + d) a l = a * b ^ l.length + beNatBase b l := by
  intro l
  induction l with
  | nil => intro a; simp [beNatBase]
  | cons x t ih =>
    intro a
    have h1 : List.foldl (fun x d => b * x + d) a (x :: t) =
        List.foldl (fun x d => b * x + d) (b * a + x) t := rfl
    have h2 : beNatBase b (x :: t) =
        List.foldl (fun x d => b * x + d) (b * 0 + x) t := rfl
    rw [h1, ih (b * a + x), h2, ih (b * 0 + x), List.length_cons]
    ring

theorem beNatBase_append (b : Nat) (l1 l2 : List Nat) :
    beNatBase b (l1 ++ l2) = beNatBase b l1 * b ^ l2.length + beNatBase b l2 := by
  rw [beNatBase, List.foldl_append]
  exact foldl_mul_add_shift b l2 _

theorem beNatBase_cons (b x : Nat) (t : List Nat) :
    beNatBase b (x :: t) = (b * 0 + x) * b ^ t.length + beNatBase b t := by
  have h0 : beNatBase b (x :: t) =
      List.foldl (fun y d => b * y + d) (b * 0 + x) t := rfl
  rw [h0, foldl_mul_add_shift]

theorem beNatBase_set_ne (b : Nat) (hb : 0 < b) (l : List Nat) (i d : Nat)
    (hi : i < l.length) (hne : d ≠ l.getD i 0) :
    beNatBase b (l.set i d) ≠ beNatBase b l := by
  intro hcon
  apply hne
  rw [set_decomp l i d hi] at hcon
  conv_rhs at hcon => rw [list_decomp 0 l i hi]
  rw [beNatBase_append, beNatBase_append, beNatBase_cons, beNatBase_cons,
    List.length_cons, List.length_cons, Nat.mul_zero, Nat.zero_add, Nat.zero_add] at hcon
  have hpow : 0 < b ^ (l.drop (i + 1)).length := Nat.pos_pow_of_pos _ hb
  have hmul : d * b ^ (l.drop (i + 1)).length = l.getD i 0 * b ^ (l.drop (i + 1)).length := by
    omega
  exact Nat.eq_of_mul_eq_mul_right hpow hmul

end BchAddr

namespace BchAddr

/-! ### Decode inversion -/

theorem from_base58_some_inv (s : String) (raw : List Nat)
    (h : from_base58 s = some raw) :
    ∃ ds, parseB58Chars s.data = some ds ∧
      raw = List.replicate (countLeadingZeros ds) 0 ++ bytesBE (beNatBase 58 ds) := by
  rw [from_base58] at h
  cases hp : parseB58Chars s.data with
  | none => rw [hp] at h; cases h
  | some ds =>
    rw [hp] at h
    simp only [Option.map_some'] at h
    exact ⟨ds, rfl, (Option.some.inj h).symm⟩

theorem beNatBase_256_raw (z n : Nat) :
    beNatBase 256 (List.replicate z 0 ++ bytesBE n) = n := by
  rw [beNatBase_replicate_append, bytesBE_eq, beNatBase_digits_reverse]

theorem decode_ok_inv (s : String) (a : Address)
    (h : Base58Codec.decode s = Except.ok a) :
    ∃ raw, from_base58 s = some raw ∧ raw.length = 25 ∧
      b58VersionLookup (raw.getD 0 0) = some (a.network, a.hash_type) ∧
      (sha256d (raw.take 21)).take 4 = raw.drop 21 ∧
      a.body = (raw.take 21).drop 1 ∧ a.scheme = Scheme.Base58 := by
  cases hfb : from_base58 s with
  | none => rw [decode_none s hfb] at h; cases h
  | some raw =>
    rw [decode_some s raw hfb] at h
    split at h
    · cases h
    · next hlen =>
      have h25 : raw.length = 25 := by omega
      rw [h25] at h
      split at h
      · cases h
      · next nw ht hlook =>
        split at h
        · cases h
        · next hck =>
          cases h
          push_neg at hck
          norm_num at hck
          exact ⟨raw, rfl, h25, hlook, hck, by norm_num, rfl⟩

theorem b58VersionLookup_inj (v1 v2 : Nat) (p : Network × HashType)
    (h1 : b58VersionLookup v1 = some p) (h2 : b58VersionLookup v2 = some p) : v1 = v2 := by
  rw [b58VersionLookup] at h1 h2
  split_ifs at h1 h2 <;> cases h1 <;> simp_all

/-! ### A single in-alphabet substitution never reproduces the same address -/

theorem decode_set_ne_addr (s : String) (a a' : Address) (i : Nat) (c : Char)
    (ha : Base58Codec.decode s = Except.ok a)
    (hi : i < s.data.length)
    (hc : c ≠ s.data.getD i ' ')
    (ha' : Base58Codec.decode ⟨s.data.set i c⟩ = Except.ok a') :
    a' ≠ a := by
  obtain ⟨raw, hfb, hlen, hlook, hck, hbody, _⟩ := decode_ok_inv s a ha
  obtain ⟨raw', hfb', hlen', hlook', hck', hbody', _⟩ := decode_ok_inv _ a' ha'
  obtain ⟨ds, hp, hraw⟩ := from_base58_some_inv s raw hfb
  obtain ⟨ds2, hp2, hraw2⟩ := from_base58_some_inv _ raw' hfb'
  have hp2' : parseB58Chars (s.data.set i c) = some ds2 := hp2
  -- the substituted character must itself be an alphabet character
  cases hidx : b58Index c with
  | none =>
    rw [parseB58Chars_none_of_mem (s.data.set i c) c (mem_set_self s.data i c hi) hidx] at hp2'
    cases hp2'
  | some d =>
    have hset : parseB58Chars (s.data.set i c) = some (ds.set i d) :=
      parseB58Chars_set s.data ds i c d hp hidx
    rw [hp2'] at hset
    have hds2 : ds2 = ds.set i d := Option.some.inj hset
    -- the substituted digit differs from the original digit at i
    have hdsl : ds.length = s.data.length := parseB58Chars_length s.data ds hp
    have hdne : d ≠ ds.getD i 0 := by
      intro hdeq
      apply hc
      apply b58Index_inj c (s.data.getD i ' ') d hidx
      rw [hdeq]
      exact parseB58Chars_getD s.data ds hp i hi
    -- hence the decoded values differ
    have hvne : beNatBase 58 ds2 ≠ beNatBase 58 ds := by
      rw [hds2]
      exact beNatBase_set_ne 58 (by norm_num) ds i d (by omega) hdne
    -- if the two addresses were equal the two byte strings would coincide
    intro haa
    apply hvne
    have hn : beNatBase 256 raw = beNatBase 58 ds := by
      rw [hraw, beNatBase_256_raw]
    have hn' : beNatBase 256 raw' = beNatBase 58 ds2 := by
      rw [hraw2, beNatBase_256_raw]
    have hrr : raw' = raw := by
      obtain ⟨v, rest, hvr⟩ := List.exists_cons_of_ne_nil
        (show raw ≠ [] by intro hn0; rw [hn0] at hlen; cases hlen)
      obtain ⟨v', rest', hvr'⟩ := List.exists_cons_of_ne_nil
        (show raw' ≠ [] by intro hn0; rw [hn0] at hlen'; cases hlen')
      rw [haa] at hlook' hbody'
      have hv : v' = v := by
        apply b58VersionLookup_inj v' v (a.network, a.hash_type)
        · rw [← show (raw'.getD 0 0) = v' by rw [hvr']; rfl]
          exact hlook'
        · rw [← show (raw.getD 0 0) = v by rw [hvr]; rfl]
          exact hlook
      have htk : raw.take 21 = v :: rest.take 20 := by
        rw [hvr, show (21 : Nat) = 20 + 1 from rfl, List.take_succ_cons]
      have htk' : raw'.take 21 = v' :: rest'.take 20 := by
        rw [hvr', show (21 : Nat) = 20 + 1 from rfl, List.take_succ_cons]
      have hrest : rest'.take 20 = rest.take 20 := by
        have h1 : a.body = rest.take 20 := by rw [hbody, htk]; rfl
        have h2 : a.body = rest'.take 20 := by rw [hbody', htk']; rfl
        rw [← h1, ← h2]
      have htk21 : raw'.take 21 = raw.take 21 := by
        rw [htk, htk', hv, hrest]
      have hdr : raw'.drop 21 = raw.drop 21 := by
        rw [← hck, ← hck', htk21]
      calc raw' = raw'.take 21 ++ raw'.drop 21 := (List.take_append_drop 21 raw').symm
      _ = raw.take 21 ++ raw.drop 21 := by rw [htk21, hdr]
      _ = raw := List.take_append_drop 21 raw
    rw [← hn, ← hn', hrr]

/-! ### A non-alphabet substitution always fails as `Non58` -/

theorem decode_set_nonalphabet (s : String) (i : Nat) (c : Char)
    (hi : i < s.data.length) (hc : b58Index c = none) :
    Base58Codec.decode ⟨s.data.set i c⟩ = Except.error Base58Error.Non58 := by
  apply decode_none
  rw [from_base58_mk,
    parseB58Chars_none_of_mem (s.data.set i c) c (mem_set_self s.data i c hi) hc]
  rfl

end BchAddr

namespace BchAddr

/-! ## Claim theorems -/

set_option maxRecDepth 100000 in
/-- C1, counterexample: the encode-then-decode round trip is not exact for
`Network.Regtest` — the all-zero 20-byte body encoded for Regtest decodes
with network `Test`. -/
theorem c1_counterexample :
    Base58Codec.decode (Base58Codec.encodeStr (List.replicate 20 0)
        HashType.Key Network.Regtest) =
      Except.ok ⟨Scheme.Base58, List.replicate 20 0, HashType.Key, Network.Test⟩ ∧
    Network.Test ≠ Network.Regtest := by
  exact ⟨by decide, by decide⟩

/-- C1, amended: for every 20-byte body the round trip restores the body
and hash type exactly, and the network exactly for Main and Test; a
Regtest input comes back as Test (Base58 cannot represent Regtest). -/
theorem c1_roundtrip (body : List Nat) (ht : HashType) (nw : Network) (encStr : String)
    (hlen : body.length = 20) (hb : ∀ x ∈ body, x < 256)
    (henc : Base58Codec.encode body ht nw = Except.ok encStr) :
    Base58Codec.decode encStr =
      Except.ok ⟨Scheme.Base58, body, ht, collapseNet nw⟩ := by
  have hstr : encStr = Base58Codec.encodeStr body ht nw :=
    (Except.ok.inj henc).symm
  rw [hstr]
  exact decode_encodeStr body hlen hb ht nw

set_option maxRecDepth 100000 in
/-- C1, witness: the round trip at the known 20-byte vector body. -/
theorem c1_roundtrip_witness :
    Base58Codec.decode "1NM2HFXin4cEQRBLjkNZAS98qLX9JKzjKn" =
      Except.ok ⟨Scheme.Base58, vecBody, HashType.Key, Network.Main⟩ :=
  c1_roundtrip vecBody HashType.Key Network.Main
    "1NM2HFXin4cEQRBLjkNZAS98qLX9JKzjKn" (by decide) (by decide) (by decide)

end BchAddr

namespace BchAddr

set_option maxRecDepth 100000 in
/-- C2, counterexample, refuting both halves of the claim. First half: the
known-valid address decodes, and replacing its first character `'1'` by
the alphabet character `'2'` makes decode fail with the invalid-version
(`InvalidNetwork`) error — not a checksum or invalid-character error as
the claim states. Second half: the valid address
`15cvx9VBJPzCHq9XCFYEhcE2ZUm2jeCeJF` and the string obtained from it by
replacing the single character at position 24 (`'Z'` by `'K'`) BOTH decode
successfully — the flipped string's trailing bytes happen to match the
double-SHA-256 checksum of its own altered payload — and the second decode
returns a body different from the first, so decode can succeed returning a
different body. -/
theorem c2_counterexample :
    (Base58Codec.decode "1NM2HFXin4cEQRBLjkNZAS98qLX9JKzjKn" =
      Except.ok ⟨Scheme.Base58, vecBody, HashType.Key, Network.Main⟩ ∧
    "2NM2HFXin4cEQRBLjkNZAS98qLX9JKzjKn".data =
      "1NM2HFXin4cEQRBLjkNZAS98qLX9JKzjKn".data.set 0 '2' ∧
    Base58Codec.decode "2NM2HFXin4cEQRBLjkNZAS98qLX9JKzjKn" =
      Except.error Base58Error.InvalidNetwork ∧
    Base58Error.InvalidNetwork ≠ Base58Error.InvalidChecksum ∧
    Base58Error.InvalidNetwork ≠ Base58Error.Non58) ∧
    (Base58Codec.decode "15cvx9VBJPzCHq9XCFYEhcE2ZUm2jeCeJF" =
      Except.ok ⟨Scheme.Base58, flipBodyA, HashType.Key, Network.Main⟩ ∧
    "15cvx9VBJPzCHq9XCFYEhcE2KUm2jeCeJF".data =
      "15cvx9VBJPzCHq9XCFYEhcE2ZUm2jeCeJF".data.set 24 'K' ∧
    Base58Codec.decode "15cvx9VBJPzCHq9XCFYEhcE2KUm2jeCeJF" =
      Except.ok ⟨Scheme.Base58, flipBodyB, HashType.Key, Network.Main⟩ ∧
    flipBodyA ≠ flipBodyB) := by
  exact ⟨⟨by decide, by decide, by decide, by decide, by decide⟩,
    ⟨by decide, by decide, by decide, by decide⟩⟩

/-- C2, amended: replacing one character of a string with a non-alphabet
character always makes decode fail with the invalid-character (`Non58`)
error; replacing it with a different alphabet character does not always
fail (the counterexample exhibits a single-character flip of a valid
address that decodes successfully with a different body), but it can
never produce a string that decodes to the same address — a success
always returns a different address. -/
theorem c2_substitution (s : String) (i : Nat) (c : Char) (a a' : Address) :
    (i < s.data.length → b58Index c = none →
      Base58Codec.decode ⟨s.data.set i c⟩ = Except.error Base58Error.Non58) ∧
    (Base58Codec.decode s = Except.ok a → i < s.data.length →
      c ≠ s.data.getD i ' ' →
      Base58Codec.decode ⟨s.data.set i c⟩ = Except.ok a' → a' ≠ a) :=
  ⟨fun hi hc => decode_set_nonalphabet s i c hi hc,
   fun ha hi hc ha' => decode_set_ne_addr s a a' i c ha hi hc ha'⟩

set_option maxRecDepth 100000 in
/-- C2, witness: replacing the first character of the known vector with
the non-alphabet character `'0'` fails as `Non58`. -/
theorem c2_substitution_witness :
    Base58Codec.decode ⟨"1NM2HFXin4cEQRBLjkNZAS98qLX9JKzjKn".data.set 0 '0'⟩ =
      Except.error Base58Error.Non58 :=
  (c2_substitution "1NM2HFXin4cEQRBLjkNZAS98qLX9JKzjKn" 0 '0'
    ⟨Scheme.Base58, [], HashType.Key, Network.Main⟩
    ⟨Scheme.Base58, [], HashType.Key, Network.Main⟩).1 (by decide) (by decide)

set_option maxRecDepth 100000 in
/-- C3, counterexample: a 25-byte input whose version byte (0x01) is
unknown and whose checksum is also wrong fails with the invalid-version
(`InvalidNetwork`) error, not the checksum error: the version lookup runs
first in src/base58.rs. -/
theorem c3_counterexample :
    from_base58 "QLbz7JHiBTspS962RLKV8GndWFwiEaqKM" =
      some (1 :: (List.replicate 20 0 ++ [0, 0, 0, 0])) ∧
    (sha256d ((1 :: (List.replicate 20 0 ++ [0, 0, 0, 0])).take 21)).take 4 ≠
      (1 :: (List.replicate 20 0 ++ [0, 0, 0, 0])).drop 21 ∧
    Base58Codec.decode "QLbz7JHiBTspS962RLKV8GndWFwiEaqKM" =
      Except.error Base58Error.InvalidNetwork ∧
    Base58Error.InvalidNetwork ≠ Base58Error.InvalidChecksum := by
  exact ⟨by decide, by decide, by decide, by decide⟩

/-- C3, amended: in `Base58Codec::decode` the version-byte lookup runs
before the checksum comparison: a 25-byte decode with an unknown version
byte fails with the invalid-version error even when the checksum is also
wrong, and the checksum error is reported only for recognized version
bytes. -/
theorem c3_order (s : String) (raw : List Nat) (p : Network × HashType) :
    (from_base58 s = some raw → raw.length = 25 →
      b58VersionLookup (raw.getD 0 0) = none →
      Base58Codec.decode s = Except.error Base58Error.InvalidNetwork) ∧
    (from_base58 s = some raw → raw.length = 25 →
      b58VersionLookup (raw.getD 0 0) = some p →
      (sha256d (raw.take 21)).take 4 ≠ raw.drop 21 →
      Base58Codec.decode s = Except.error Base58Error.InvalidChecksum) :=
  ⟨fun h h25 hl => decode_invalid_version s raw h h25 hl,
   fun h h25 hl hck => decode_invalid_checksum s raw p h h25 hl hck⟩

set_option maxRecDepth 100000 in
/-- C3, witness: the order theorem applied to the concrete bad-version
input. -/
theorem c3_order_witness :
    Base58Codec.decode "QLbz7JHiBTspS962RLKV8GndWFwiEaqKM" =
      Except.error Base58Error.InvalidNetwork :=
  (c3_order "QLbz7JHiBTspS962RLKV8GndWFwiEaqKM"
    (1 :: (List.replicate 20 0 ++ [0, 0, 0, 0]))
    (Network.Main, HashType.Key)).1 (by decide) (by decide) (by decide)

/-- C4: Test and Regtest produce identical Base58 encodings (they share
version bytes 0x6f and 0xc4), and decode never reports Regtest. -/
theorem c4_test_regtest (raw : List Nat) (ht : HashType) (s : String) (a : Address) :
    Base58Codec.encode raw ht Network.Test = Base58Codec.encode raw ht Network.Regtest ∧
    b58VersionLookup 0x6f = some (Network.Test, HashType.Key) ∧
    b58VersionLookup 0xc4 = some (Network.Test, HashType.Script) ∧
    (Base58Codec.decode s = Except.ok a → a.network ≠ Network.Regtest) := by
  refine ⟨?_, by decide, by decide, ?_⟩
  · cases ht <;> rfl
  · intro h
    obtain ⟨raw0, _, _, hlook, _, _, _⟩ := decode_ok_inv s a h
    exact b58VersionLookup_ne_regtest _ _ hlook

set_option maxRecDepth 100000 in
/-- C4, witness: the encode halves agree on the known body, and the
address decoded from the known vector is not on Regtest. -/
theorem c4_test_regtest_witness :
    (⟨Scheme.Base58, vecBody, HashType.Key, Network.Main⟩ : Address).network ≠
      Network.Regtest :=
  (c4_test_regtest vecBody HashType.Key "1NM2HFXin4cEQRBLjkNZAS98qLX9JKzjKn"
    ⟨Scheme.Base58, vecBody, HashType.Key, Network.Main⟩).2.2.2 (by decide)

set_option maxRecDepth 100000 in
/-- C5: the known vector — encoding the hash160
`ea2407829a5055466b27784cde8cf463167946bf` with (Key, Main) yields
`1NM2HFXin4cEQRBLjkNZAS98qLX9JKzjKn`, and decoding that string restores
exactly the body, Key and Main. -/
theorem c5_known_vector :
    Base58Codec.encode vecBody HashType.Key Network.Main =
      Except.ok "1NM2HFXin4cEQRBLjkNZAS98qLX9JKzjKn" ∧
    Base58Codec.decode "1NM2HFXin4cEQRBLjkNZAS98qLX9JKzjKn" =
      Except.ok ⟨Scheme.Base58, vecBody, HashType.Key, Network.Main⟩ := by
  exact ⟨by decide, by decide⟩

/-- C6: whenever the base58 conversion succeeds with a byte count other
than 25, decode fails with the invalid-length error; and decoding
`1000000000000000000000000000000000` fails (with `Non58`: `'0'` is not in
the alphabet). -/
theorem c6_invalid_length (s : String) (raw : List Nat) :
    (from_base58 s = some raw → raw.length ≠ 25 →
      Base58Codec.decode s = Except.error Base58Error.InvalidLength) ∧
    Base58Codec.decode "1000000000000000000000000000000000" =
      Except.error Base58Error.Non58 :=
  ⟨fun h hlen => decode_invalid_length s raw h hlen, by decide⟩

/-- C6, witness: `"2"` converts to the single byte 1 and fails with the
invalid-length error. -/
theorem c6_invalid_length_witness :
    Base58Codec.decode "2" = Except.error Base58Error.InvalidLength :=
  (c6_invalid_length "2" [1]).1 (by decide) (by decide)

/-- C7: decode maps every base58 conversion failure to the same bare
`Non58` tag — inputs whose offending characters differ (`'0'` vs `'I'`)
produce identical errors, so the error cannot identify the character and
carries no structured data. -/
theorem c7_error_no_payload :
    Base58Codec.decode "0" = Except.error Base58Error.Non58 ∧
    Base58Codec.decode "I" = Except.error Base58Error.Non58 ∧
    Base58Codec.decode "0" = Base58Codec.decode "I" := by
  exact ⟨by decide, by decide, by decide⟩

/-- C8: `Base58Codec::encode` is total — for every byte sequence and every
(hash type, network) pair it returns `Ok` with a string. -/
theorem c8_encode_total (raw : List Nat) (ht : HashType) (nw : Network) :
    ∃ s, Base58Codec.encode raw ht nw = Except.ok s :=
  ⟨Base58Codec.encodeStr raw ht nw, rfl⟩

set_option maxRecDepth 100000 in
/-- C9: the CashAddr vector — encoding the known hash160 with (Key, Test)
yields `bchtest:qr4zgpuznfg923ntyauyeh5v7333v72xhum2dsdgfh`, and decoding
that string restores exactly the body, Key and Test. -/
theorem c9_cashaddr_vector :
    CashAddrCodec.encode vecBody HashType.Key Network.Test =
      Except.ok "bchtest:qr4zgpuznfg923ntyauyeh5v7333v72xhum2dsdgfh" ∧
    CashAddrCodec.decode "bchtest:qr4zgpuznfg923ntyauyeh5v7333v72xhum2dsdgfh" =
      Except.ok ⟨Scheme.CashAddr, vecBody, HashType.Key, Network.Test⟩ := by
  exact ⟨by decide, by decide⟩

/-- C10: `into_base58` and `into_cashaddr` change only the codec type
parameter — body, hash type and network are moved across unchanged. -/
theorem c10_conversions_frame (C : Scheme) (a : AddressT C) :
    (a.into_base58.body = a.body ∧ a.into_base58.hash_type = a.hash_type ∧
      a.into_base58.network = a.network) ∧
    (a.into_cashaddr.body = a.body ∧ a.into_cashaddr.hash_type = a.hash_type ∧
      a.into_cashaddr.network = a.network) :=
  ⟨⟨rfl, rfl, rfl⟩, ⟨rfl, rfl, rfl⟩⟩

end BchAddr
